import Mathlib

/-!
Verification of the `buns` script launcher core against its specification.

Each Go function under scrutiny is shallow-embedded as an executable Lean
definition; external collaborators (the Masterminds semver library, the
BurntSushi TOML decoder, the operating system, the network) are modelled as
explicit parameters.  Machine integers are modelled as `Nat`/`Int` with
explicit reduction `% 2^32` where overflow matters; fallible Go functions
return `Except`/`Option`.
-/

set_option maxRecDepth 10000

namespace Buns

/-! ## SHA-256 (crypto/sha256, FIPS 180-4), used by `cache.HashPackages` -/

namespace SHA256

/-- Reduce a value to a 32-bit word. -/
def w32 (n : Nat) : Nat := n % 4294967296

/-- Right rotation of a 32-bit word. -/
def rotr (n x : Nat) : Nat := w32 ((x >>> n) ||| (x <<< (32 - n)))

/-- Logical right shift. -/
def shr (n x : Nat) : Nat := x >>> n

/-- Bitwise complement within 32 bits. -/
def bnot32 (x : Nat) : Nat := x ^^^ 4294967295

/-- SHA-256 choice function. -/
def ch (x y z : Nat) : Nat := (x &&& y) ^^^ (bnot32 x &&& z)

/-- SHA-256 majority function. -/
def maj (x y z : Nat) : Nat := (x &&& y) ^^^ (x &&& z) ^^^ (y &&& z)

/-- SHA-256 Σ0. -/
def bigSigma0 (x : Nat) : Nat := rotr 2 x ^^^ rotr 13 x ^^^ rotr 22 x

/-- SHA-256 Σ1. -/
def bigSigma1 (x : Nat) : Nat := rotr 6 x ^^^ rotr 11 x ^^^ rotr 25 x

/-- SHA-256 σ0. -/
def smallSigma0 (x : Nat) : Nat := rotr 7 x ^^^ rotr 18 x ^^^ shr 3 x

/-- SHA-256 σ1. -/
def smallSigma1 (x : Nat) : Nat := rotr 17 x ^^^ rotr 19 x ^^^ shr 10 x

/-- The 64 SHA-256 round constants. -/
def K : List Nat :=
  [0x428A2F98, 0x71374491, 0xB5C0FBCF, 0xE9B5DBA5, 0x3956C25B, 0x59F111F1, 0x923F82A4, 0xAB1C5ED5,
   0xD807AA98, 0x12835B01, 0x243185BE, 0x550C7DC3, 0x72BE5D74, 0x80DEB1FE, 0x9BDC06A7, 0xC19BF174,
   0xE49B69C1, 0xEFBE4786, 0x0FC19DC6, 0x240CA1CC, 0x2DE92C6F, 0x4A7484AA, 0x5CB0A9DC, 0x76F988DA,
   0x983E5152, 0xA831C66D, 0xB00327C8, 0xBF597FC7, 0xC6E00BF3, 0xD5A79147, 0x06CA6351, 0x14292967,
   0x27B70A85, 0x2E1B2138, 0x4D2C6DFC, 0x53380D13, 0x650A7354, 0x766A0ABB, 0x81C2C92E, 0x92722C85,
   0xA2BFE8A1, 0xA81A664B, 0xC24B8B70, 0xC76C51A3, 0xD192E819, 0xD6990624, 0xF40E3585, 0x106AA070,
   0x19A4C116, 0x1E376C08, 0x2748774C, 0x34B0BCB5, 0x391C0CB3, 0x4ED8AA4A, 0x5B9CCA4F, 0x682E6FF3,
   0x748F82EE, 0x78A5636F, 0x84C87814, 0x8CC70208, 0x90BEFFFA, 0xA4506CEB, 0xBEF9A3F7, 0xC67178F2]

/-- The eight 32-bit working variables of the compression function. -/
structure Hash8 where
  a : Nat
  b : Nat
  c : Nat
  d : Nat
  e : Nat
  f : Nat
  g : Nat
  h : Nat
deriving DecidableEq

/-- SHA-256 initial hash value. -/
def initH : Hash8 :=
  ⟨0x6A09E667, 0xBB67AE85, 0x3C6EF372, 0xA54FF53A, 0x510E527F, 0x9B05688C, 0x1F83D9AB, 0x5BE0CD19⟩

/-- Extend a 16-word message block by `k` further schedule words. -/
def extendSchedule : List Nat → Nat → List Nat
  | ws, 0 => ws
  | ws, k+1 =>
      let i := ws.length
      let w := w32 (smallSigma1 (ws.getD (i-2) 0) + ws.getD (i-7) 0 +
                    smallSigma0 (ws.getD (i-15) 0) + ws.getD (i-16) 0)
      extendSchedule (ws ++ [w]) k

/-- One SHA-256 round over constant/schedule-word pair `kw`. -/
def roundFn (st : Hash8) (kw : Nat × Nat) : Hash8 :=
  let t1 := w32 (st.h + bigSigma1 st.e + ch st.e st.f st.g + kw.1 + kw.2)
  let t2 := w32 (bigSigma0 st.a + maj st.a st.b st.c)
  ⟨w32 (t1 + t2), st.a, st.b, st.c, w32 (st.d + t1), st.e, st.f, st.g⟩

/-- Componentwise 32-bit addition of hash states. -/
def addHash (x y : Hash8) : Hash8 :=
  ⟨w32 (x.a + y.a), w32 (x.b + y.b), w32 (x.c + y.c), w32 (x.d + y.d),
   w32 (x.e + y.e), w32 (x.f + y.f), w32 (x.g + y.g), w32 (x.h + y.h)⟩

/-- Compress one 16-word block into the running hash state. -/
def compressBlock (st : Hash8) (block : List Nat) : Hash8 :=
  let ws := extendSchedule block 48
  addHash st ((K.zip ws).foldl roundFn st)

/-- Big-endian byte encoding of `n` in `k` bytes. -/
def beBytes : Nat → Nat → List Nat
  | 0, _ => []
  | k+1, n => beBytes k (n / 256) ++ [n % 256]

/-- SHA-256 message padding: a `0x80` byte, zeros to 56 mod 64, and the
bit length as a 64-bit big-endian integer. -/
def padMessage (msg : List Nat) : List Nat :=
  let len := msg.length
  let z := (119 - len % 64) % 64
  msg ++ 0x80 :: List.replicate z 0 ++ beBytes 8 (8 * len)

/-- Group bytes into big-endian 32-bit words. -/
def bytesToWords : List Nat → List Nat
  | b0 :: b1 :: b2 :: b3 :: rest => (((b0 * 256 + b1) * 256 + b2) * 256 + b3) :: bytesToWords rest
  | _ => []

/-- Group words into 16-word blocks. -/
def chunk16 : List Nat → List (List Nat)
  | w0::w1::w2::w3::w4::w5::w6::w7::w8::w9::w10::w11::w12::w13::w14::w15::rest =>
      [w0,w1,w2,w3,w4,w5,w6,w7,w8,w9,w10,w11,w12,w13,w14,w15] :: chunk16 rest
  | _ => []

/-- Serialize the final hash state as 32 bytes. -/
def digestBytes (st : Hash8) : List Nat :=
  beBytes 4 st.a ++ beBytes 4 st.b ++ beBytes 4 st.c ++ beBytes 4 st.d ++
  beBytes 4 st.e ++ beBytes 4 st.f ++ beBytes 4 st.g ++ beBytes 4 st.h

/-- SHA-256 digest of a byte sequence. -/
def sha256 (msg : List Nat) : List Nat :=
  digestBytes ((chunk16 (bytesToWords (padMessage msg))).foldl compressBlock initH)

/-- Lowercase hexadecimal digit. -/
def hexDigit (n : Nat) : Char := if n < 10 then Char.ofNat (48 + n) else Char.ofNat (87 + n)

/-- Two lowercase hex digits of a byte (Go `hex.EncodeToString`). -/
def byteToHex (b : Nat) : List Char := [hexDigit (b / 16), hexDigit (b % 16)]

/-- Lowercase hex encoding of a byte sequence (Go `hex.EncodeToString`). -/
def hexEncode (bs : List Nat) : String := ⟨(bs.map byteToHex).flatten⟩

/-- UTF-8 encoding of one character. -/
def utf8EncodeChar (c : Char) : List Nat :=
  let n := c.toNat
  if n < 0x80 then [n]
  else if n < 0x800 then [0xC0 ||| (n >>> 6), 0x80 ||| (n &&& 0x3F)]
  else if n < 0x10000 then
    [0xE0 ||| (n >>> 12), 0x80 ||| ((n >>> 6) &&& 0x3F), 0x80 ||| (n &&& 0x3F)]
  else
    [0xF0 ||| (n >>> 18), 0x80 ||| ((n >>> 12) &&& 0x3F), 0x80 ||| ((n >>> 6) &&& 0x3F),
     0x80 ||| (n &&& 0x3F)]

/-- UTF-8 bytes of a string (Go `[]byte(s)`). -/
def strBytes (s : String) : List Nat := (s.data.map utf8EncodeChar).flatten

end SHA256

/-! ## internal/cache/cache.go -/

namespace Cache

/-- Models Go `strings.ToLower` applied elementwise to the characters of the
string.  `Char.toLower` performs the ASCII simple case mapping, which agrees
with Go on ASCII input (npm package specs are ASCII). -/
def goToLower (s : String) : String := ⟨s.data.map Char.toLower⟩

/-- Lexicographic byte-order comparison on character lists.  For UTF-8 encoded
text, comparing code points lexicographically coincides with Go's byte-wise
string comparison used by `sort.Strings`. -/
def charsLe : List Char → List Char → Bool
  | [], _ => true
  | _ :: _, [] => false
  | a :: as, b :: bs =>
      if a.toNat < b.toNat then true
      else if b.toNat < a.toNat then false
      else charsLe as bs

/-- The ordering relation of Go `sort.Strings`. -/
def strLeGo (s t : String) : Prop := charsLe s.data t.data = true

instance : DecidableRel strLeGo := fun _ _ => inferInstanceAs (Decidable (_ = true))

/-- Models Go `sort.Strings` (the result of sorting under a total order does
not depend on the sorting algorithm). -/
def sortStrings (l : List String) : List String := l.insertionSort strLeGo

/-- Models Go `strings.Join`. -/
def goJoin (sep : String) : List String → String
  | [] => ""
  | [s] => s
  | s :: rest => s ++ sep ++ goJoin sep rest

/-- Shallow embedding of `cache.HashPackages`: copy, sort, lowercase each
element in place, join with a newline, SHA-256, lowercase hex. -/
def HashPackages (packages : List String) : String :=
  let sorted := sortStrings packages
  let lowered := sorted.map goToLower
  let joined := goJoin "\n" lowered
  SHA256.hexEncode (SHA256.sha256 (SHA256.strBytes joined))

/-- Elementwise relation of the claim: `t` is a letter-case variant of `s`. -/
def caseVariantStr (s t : String) : Prop := goToLower s = goToLower t

end Cache

/-! ## internal/bun/resolver.go -/

namespace BunResolver

/-- The error cases of `Resolver.Resolve`.  `invalidConstraint` carries the
constraint string and the semver parse error text (Go wraps the latter with
`%w`); `noMatchingVersion` wraps `ErrNoMatchingVersion` and carries the
constraint string. -/
inductive ResolveError where
  | noVersionsAvailable
  | invalidConstraint (constraint : String) (cause : String)
  | noMatchingVersion (constraint : String)
deriving DecidableEq

/-- Error text at the `Resolver` surface, rendering Go `fmt.Errorf` with `%w`
wrapping as string concatenation with `": "`.
`ErrNoMatchingVersion = errors.New("no Bun version satisfies constraint")`. -/
def resolveErrorText : ResolveError → String
  | .noVersionsAvailable => "no Bun versions available"
  | .invalidConstraint c cause =>
      "invalid version constraint \x27" ++ c ++ "\x27: " ++ cause
  | .noMatchingVersion c =>
      "no Bun version satisfies constraint: \x27" ++ c ++ "\x27"

/-- Shallow embedding of `Resolver.Resolve`.  The external semver library is a
parameter: `parseConstraint` models `semver.NewConstraint` (`.error` carries the
library's parse error message) and `check` models `Constraint.Check`.  The
version list is the one obtained from the `VersionSource` (its I/O error path is
outside this embedding). -/
def Resolve {C V : Type} (parseConstraint : String → Except String C)
    (check : C → V → Bool) (constraint : String) (versions : List V) :
    Except ResolveError V :=
  match versions with
  | [] => .error .noVersionsAvailable
  | v0 :: _ =>
    if constraint = "" then .ok v0
    else
      match parseConstraint constraint with
      | .error cause => .error (.invalidConstraint constraint cause)
      | .ok c =>
        match versions.find? (fun v => check c v) with
        | some v => .ok v
        | none => .error (.noMatchingVersion constraint)

/-- The Runner's resolution step (part_012, `Runner.Run`): any error from
`Resolver.Resolve` is discarded and replaced by
`fmt.Errorf("no Bun version satisfies %s", bunConstraint)` (with the constraint
in single quotes). -/
def runnerResolveStep {C V : Type} (parseConstraint : String → Except String C)
    (check : C → V → Bool) (bunConstraint : String) (versions : List V) :
    Except String V :=
  match Resolve parseConstraint check bunConstraint versions with
  | .ok v => .ok v
  | .error _ =>
      .error ("no Bun version satisfies \x27" ++ bunConstraint ++ "\x27")

end BunResolver

/-! ## internal/metadata/parser.go -/

namespace Metadata

/-- The decoded `// buns` block.  Go zero value: empty constraint, nil list. -/
structure Metadata where
  bun : String
  packages : List String
deriving DecidableEq

/-- The default configuration returned for an absent or empty block. -/
def defaultMetadata : Metadata := ⟨"", []⟩

/-- Whitespace recognized by Go `unicode.IsSpace` in the Latin-1 range (the
full Unicode space property extends this to higher code points not relevant to
script headers). -/
def isGoSpace (c : Char) : Bool :=
  c = ' ' || c = '\t' || c = '\n' || c.toNat = 11 || c.toNat = 12 || c = '\r' ||
  c.toNat = 0x85 || c.toNat = 0xA0

/-- Models Go `strings.TrimSpace`. -/
def goTrim (s : String) : String :=
  ⟨((s.data.dropWhile isGoSpace).reverse.dropWhile isGoSpace).reverse⟩

/-- Does the trimmed line begin with `//`? (Go `strings.HasPrefix(trimmed, "//")`). -/
def startsWithSlashes (s : String) : Bool :=
  match s.data with
  | '/' :: '/' :: _ => true
  | _ => false

/-- Strip the `//` and one optional following space
(Go `strings.TrimPrefix` then a single-space check). -/
def stripCommentMarker (s : String) : String :=
  match s.data with
  | '/' :: '/' :: rest =>
      match rest with
      | ' ' :: r => ⟨r⟩
      | _ => ⟨rest⟩
  | _ => s

/-- The scanning loop of `metadata.Parse`: before the marker every line is
ignored; the marker is a line whose trimmed content is exactly `// buns`;
afterwards consecutive `//` lines are collected (stripped), and the first
other line breaks the loop. -/
def collectBlock : List String → Bool → List String
  | [], _ => []
  | line :: rest, inBlock =>
      let trimmed := goTrim line
      if inBlock = false then
        if trimmed = "// buns" then collectBlock rest true
        else collectBlock rest false
      else
        if startsWithSlashes trimmed then
          stripCommentMarker trimmed :: collectBlock rest true
        else []

/-- Shallow embedding of `metadata.Parse` on the line sequence produced by
`bufio.Scanner` (which splits the input bytes at newlines).  The external TOML
decoder is the parameter `decode`; `.error` carries its message.  An empty
collection yields the default metadata without consulting the decoder. -/
def Parse (decode : String → Except String Metadata) (lines : List String) :
    Except String Metadata :=
  let tomlLines := collectBlock lines false
  if tomlLines = [] then .ok defaultMetadata
  else
    match decode (Cache.goJoin "\n" tomlLines) with
    | .ok m => .ok m
    | .error e => .error e

end Metadata

/-! ## internal/sandbox/common.go -/

namespace Sandbox

/-- The environment-variable safelist (`sandbox.SafeEnvVars`). -/
def SafeEnvVars : List String :=
  ["PATH", "HOME", "USER", "SHELL", "LANG", "TERM", "TZ", "TMPDIR", "TEMP",
   "TMP", "LOGNAME", "EDITOR", "VISUAL", "PAGER"]

/-- The safe name stems (`sandbox.SafeEnvPrefixes`). -/
def SafeEnvStems : List String := ["LC_", "XDG_"]

/-- The name part of one `NAME=VALUE` entry, per Go
`strings.SplitN(env, "=", 2)`: entries without `=` are rejected. -/
def envVarName (e : String) : Option String :=
  if e.data.contains '=' then some ⟨e.data.takeWhile (fun c => c ≠ '=')⟩ else none

/-- Is `name` allowed through the filter?  Explicitly allowed names, safelisted
names, and names with a safe stem pass. -/
def envNameAllowed (allowed : List String) (name : String) : Bool :=
  allowed.contains name || SafeEnvVars.contains name ||
    SafeEnvStems.any (fun p => p.data.isPrefixOf name.data)

/-- Shallow embedding of `sandbox.FilterEnv`.  The process environment
(`os.Environ()`) is the explicit parameter `environ`. -/
def FilterEnv (environ : List String) (allowed : List String) : List String :=
  environ.filter fun env =>
    match envVarName env with
    | none => false
    | some name => envNameAllowed allowed name

end Sandbox

/-! ## internal/cli/root.go (`runScript`, sandbox determination) -/

namespace CLI

/-- A sandbox backend, abstracted to the one property `runScript` consults:
`IsSandboxed` (true for real isolation backends, false for `None`). -/
structure SandboxBackend where
  isSandboxed : Bool
deriving DecidableEq

/-- The `None` no-op backend (`sandbox.None`, `IsSandboxed() == false`). -/
def noneBackend : SandboxBackend := ⟨false⟩

/-- Shallow embedding of the sandbox-determination step of `runScript`
(root.go).  `detect` models `sandbox.Detect` (its platform probing is
external); the argument is the `fullSandbox` flag. -/
def determineSandbox (detect : Bool → SandboxBackend) (sandboxEnabled : Bool)
    (offline : Bool) (allowHosts : List String) : Except String SandboxBackend :=
  if sandboxEnabled then
    let sb := detect true
    if sb.isSandboxed = false then
      .error "--sandbox requested but no sandbox is available on this system"
    else .ok sb
  else if offline || !allowHosts.isEmpty then
    let sb := detect false
    if sb.isSandboxed = false then
      .error "--offline/--allow-host requires network sandboxing, but no sandbox is available on this system"
    else .ok sb
  else .ok noneBackend

/-- The remainder of `runScript` after sandbox determination: an error is
returned immediately, and `runner.Run` is invoked only with a successfully
determined backend.  `runner` abstracts the execution pipeline. -/
def runScriptModel (detect : Bool → SandboxBackend) (sandboxEnabled : Bool)
    (offline : Bool) (allowHosts : List String)
    (runner : SandboxBackend → Int) : Except String Int :=
  match determineSandbox detect sandboxEnabled offline allowHosts with
  | .error e => .error e
  | .ok sb => .ok (runner sb)

end CLI

/-! ## internal/npm/registry.go (`parsePackageSpec`; part_012 has an
identical copy) -/

namespace Npm

/-- Models Go `strings.Index(spec, "@")` on the character list (`-1` when
absent); positions agree with Go's byte positions on ASCII specs. -/
def goIndexAt : List Char → Int
  | [] => -1
  | c :: cs =>
      if c = '@' then 0
      else
        let r := goIndexAt cs
        if r < 0 then -1 else r + 1

/-- Models Go `strings.LastIndex(spec, "@")` on the character list. -/
def goLastIndexAt : List Char → Int
  | [] => -1
  | c :: cs =>
      let r := goLastIndexAt cs
      if 0 ≤ r then r + 1
      else if c = '@' then 0 else -1

/-- Shallow embedding of `parsePackageSpec`: scoped specs (leading `@`) split
at the last `@` when it is distinct from the first; other specs split at the
first `@` when its index is positive; otherwise the constraint is empty. -/
def parsePackageSpec (spec : String) : String × String :=
  let cs := spec.data
  if cs.head? = some '@' then
    let idx := goLastIndexAt cs
    if 0 < idx ∧ idx ≠ goIndexAt cs then
      (⟨cs.take idx.toNat⟩, ⟨cs.drop (idx.toNat + 1)⟩)
    else (spec, "")
  else
    let idx := goIndexAt cs
    if 0 < idx then (⟨cs.take idx.toNat⟩, ⟨cs.drop (idx.toNat + 1)⟩)
    else (spec, "")

end Npm

/-! ## part_015: SOCKS5 proxy (`SOCKS5Proxy.handleConnection`,
`readAddress`, `sendReply`) -/

namespace Proxy

/-- A parsed connect-target.  `net.IP.String()` formatting of the raw address
bytes is irrelevant to the control flow and is left unapplied. -/
inductive HostAddr where
  | ipv4 (bytes : List Nat)
  | domain (bytes : List Nat)
  | ipv6 (bytes : List Nat)
deriving DecidableEq

/-- The peer address of a dialed TCP connection (`net.TCPAddr`). -/
structure TCPAddr where
  ip : List Nat
  port : Nat
deriving DecidableEq

/-- Models `io.ReadFull` into an `n`-byte buffer: `none` when the stream is
exhausted first. -/
def takeN : Nat → List Nat → Option (List Nat × List Nat)
  | 0, xs => some ([], xs)
  | _+1, [] => none
  | n+1, x :: xs =>
      match takeN n xs with
      | some (a, b) => some (x :: a, b)
      | none => none

/-- Read the two port bytes following an address (big-endian). -/
def readPort (h : HostAddr) (input : List Nat) : Option (HostAddr × Nat × List Nat) :=
  match input with
  | p1 :: p2 :: rest => some (h, p1 * 256 + p2, rest)
  | _ => none

/-- Shallow embedding of `SOCKS5Proxy.readAddress`: dispatch on the
address-type byte (`atypIPv4 = 1`, `atypDomain = 3`, `atypIPv6 = 4`), read the
address bytes and the port; any other type or a short read fails. -/
def readAddress (atyp : Nat) (input : List Nat) : Option (HostAddr × Nat × List Nat) :=
  if atyp = 1 then
    match takeN 4 input with
    | some (addr, rest) => readPort (.ipv4 addr) rest
    | none => none
  else if atyp = 3 then
    match input with
    | [] => none
    | lenByte :: rest =>
        match takeN lenByte rest with
        | some (dom, rest2) => readPort (.domain dom) rest2
        | none => none
  else if atyp = 4 then
    match takeN 16 input with
    | some (addr, rest) => readPort (.ipv6 addr) rest
    | none => none
  else none

/-- Shallow embedding of `SOCKS5Proxy.sendReply`: version, reply code, a zero
reserved byte, then the bound address — a zeroed IPv4 address and port when no
address is supplied, else the IPv4 or IPv6 form of the dialed connection's
local address. -/
def sendReplyBytes (rep : Nat) (addr : Option TCPAddr) : List Nat :=
  match addr with
  | none => [5, rep, 0, 1, 0, 0, 0, 0, 0, 0]
  | some a =>
      if a.ip.length = 4 then
        [5, rep, 0, 1] ++ a.ip ++ [a.port / 256 % 256, a.port % 256]
      else
        [5, rep, 0, 4] ++ a.ip ++ [a.port / 256 % 256, a.port % 256]

/-- The externally visible effects of one `handleConnection` run: the byte
sequences written to the client, the hosts submitted to the domain filter, and
the upstream dial attempts. -/
structure ConnTrace where
  writes : List (List Nat)
  filterQueries : List HostAddr
  dials : List (HostAddr × Nat)
deriving DecidableEq

/-- Shallow embedding of `SOCKS5Proxy.handleConnection` on the client's input
byte stream.  `filter` models `DomainFilter.IsAllowed`; `dial` models
`net.Dial` (`none` = failure, `some` = the local address of the new
connection).  Reply codes: success 0, not-allowed 2, host-unreachable 4,
command-not-supported 7, address-type-not-supported 8. -/
def handleConnection (filter : HostAddr → Bool)
    (dial : HostAddr → Nat → Option TCPAddr) (input : List Nat) : ConnTrace :=
  match takeN 2 input with
  | none => ⟨[], [], []⟩
  | some (header, rest) =>
    if header.getD 0 0 ≠ 5 then ⟨[], [], []⟩
    else
      match takeN (header.getD 1 0) rest with
      | none => ⟨[], [], []⟩
      | some (methods, rest2) =>
        if methods.contains 0 = false then ⟨[[5, 0xFF]], [], []⟩
        else
          match takeN 4 rest2 with
          | none => ⟨[[5, 0]], [], []⟩
          | some (request, rest3) =>
            if request.getD 0 0 ≠ 5 then ⟨[[5, 0]], [], []⟩
            else if request.getD 1 0 ≠ 1 then
              ⟨[[5, 0], sendReplyBytes 7 none], [], []⟩
            else
              match readAddress (request.getD 3 0) rest3 with
              | none => ⟨[[5, 0], sendReplyBytes 8 none], [], []⟩
              | some (host, port, _) =>
                if filter host = false then
                  ⟨[[5, 0], sendReplyBytes 2 none], [host], []⟩
                else
                  match dial host port with
                  | none => ⟨[[5, 0], sendReplyBytes 4 none], [host], [(host, port)]⟩
                  | some localAddr =>
                      ⟨[[5, 0], sendReplyBytes 0 (some localAddr)], [host],
                       [(host, port)]⟩

end Proxy

/-! ## internal/proxy/manager.go and part_015 (`Manager.Stop`,
`HTTPProxy.Stop`, `SOCKS5Proxy.Stop`) -/

namespace ProxyManager

/-- The lifecycle state of one `HTTPProxy`: whether `server.Shutdown` has run
(releasing its listener).  `http.Server.Shutdown` may be called repeatedly
without panicking. -/
structure HTTPProxyState where
  shutdown : Bool
deriving DecidableEq

/-- The lifecycle state of one `SOCKS5Proxy`: whether its `quit` channel has
been closed and its listener closed. -/
structure SOCKS5State where
  quitClosed : Bool
  listenerClosed : Bool
deriving DecidableEq

/-- `HTTPProxy.Stop`: shut the server down (idempotent; the returned error is
discarded by the manager). -/
def httpProxyStop (_ : HTTPProxyState) : HTTPProxyState := ⟨true⟩

/-- `SOCKS5Proxy.Stop`: `close(p.quit)` then `p.listener.Close()`.  Closing an
already-closed Go channel is a runtime panic, modelled as the `.error` case. -/
def socks5Stop (s : SOCKS5State) : Except String SOCKS5State :=
  if s.quitClosed then .error "close of closed channel"
  else .ok ⟨true, true⟩

/-- The state of a `proxy.Manager`: optional HTTP proxy, optional SOCKS5
proxy, optional Unix-socket proxy with its socket path, and whether the socket
file currently exists. -/
structure ManagerState where
  httpProxy : Option HTTPProxyState
  socks5Proxy : Option SOCKS5State
  socketProxy : Option HTTPProxyState
  socketPath : String
  socketFileExists : Bool
deriving DecidableEq

/-- Shallow embedding of `Manager.Stop`: stop the socket proxy and remove the
socket file, stop the SOCKS5 proxy, stop the HTTP proxy, in that order.  The
second component is `some msg` when a runtime panic aborts the sequence (the
state then reflects the mutations made before the panic). -/
def managerStop (m : ManagerState) : ManagerState × Option String :=
  let m1 :=
    match m.socketProxy with
    | some sp =>
        { m with
          socketProxy := some (httpProxyStop sp),
          socketFileExists := if m.socketPath ≠ "" then false else m.socketFileExists }
    | none => m
  match m1.socks5Proxy with
  | some s =>
      match socks5Stop s with
      | .error msg => (m1, some msg)
      | .ok s2 =>
          let m2 := { m1 with socks5Proxy := some s2 }
          match m2.httpProxy with
          | some h => ({ m2 with httpProxy := some (httpProxyStop h) }, none)
          | none => (m2, none)
  | none =>
      match m1.httpProxy with
      | some h => ({ m1 with httpProxy := some (httpProxyStop h) }, none)
      | none => (m1, none)

/-- A freshly started manager on Linux whose HTTP, SOCKS5 and Unix-socket
proxies all started successfully (`NewManager`'s success path). -/
def startedManager : ManagerState :=
  ⟨some ⟨false⟩, some ⟨false, false⟩, some ⟨false⟩, "/tmp/buns-proxy-0001.sock", true⟩

end ProxyManager

/-! ## internal/sandbox/nsjail.go (`Nsjail.buildArgs`) -/

namespace Nsjail

/-- The `sandbox.Config` fields read by `buildArgs`.  `timeout` is the
`time.Duration` in nanoseconds; the emitted value is
`int(cfg.Timeout.Seconds())`, which for a positive duration is truncating
division by 10^9. -/
structure Config where
  timeout : Int
  memoryMB : Int
  cpuSeconds : Int
  network : Bool
  proxySocketPath : String
  bunBinary : String
  scriptPath : String
  workDir : String
  nodeModules : String
  readablePaths : List String
  writablePaths : List String
  allowedEnvVars : List String
  env : List String
  scriptArgs : List String

/-- The filesystem and process context consulted by `buildArgs`:
`statExists` models `os.Stat` succeeding, `resolvePath` models
`sandbox.ResolvePath` (absolutization plus symlink resolution), `mkdirOk`
models `os.MkdirAll` succeeding, `dirOf` models `filepath.Dir`, and `environ`
models `os.Environ()`. -/
structure FSContext where
  statExists : String → Bool
  resolvePath : String → Option String
  mkdirOk : String → Bool
  dirOf : String → String
  environ : List String

/-- `sandbox.BuildBunArgs`: the interpreter invocation. -/
def BuildBunArgs (cfg : Config) : List String :=
  [cfg.bunBinary, "run", cfg.scriptPath] ++ cfg.scriptArgs

/-- `sandbox.BuildEnvWithNodePath`. -/
def BuildEnvWithNodePath (baseEnv : List String) (nodeModules : String) : List String :=
  if nodeModules = "" then baseEnv
  else baseEnv ++ ["NODE_PATH=" ++ nodeModules]

/-- Shallow embedding of `Nsjail.buildArgs`.  Each `append` in the Go function
appears in order; `os.Stat` probes and `ResolvePath` calls go through the
`FSContext`.  A failed resolve of the interpreter, script, working directory or
dependency tree aborts with an error, as in Go. -/
def buildArgs (fs : FSContext) (cfg : Config) : Except String (List String) := do
  let args0 := ["--mode", "o", "--user", "65534", "--group", "65534", "--quiet"]
  let args1 := args0 ++
    (if 0 < cfg.timeout then ["--time_limit", toString (cfg.timeout / 1000000000)] else [])
  let args2 := args1 ++
    (if 0 < cfg.memoryMB then ["--rlimit_as", toString cfg.memoryMB] else [])
  let args3 := args2 ++
    (if 0 < cfg.cpuSeconds then ["--rlimit_cpu", toString cfg.cpuSeconds] else [])
  let args4 := args3 ++
    ["--rlimit_fsize", "50", "--rlimit_nofile", "128", "--rlimit_nproc", "10"]
  let args5 := args4 ++
    (if cfg.network = false then ["--clone_newnet"]
     else if cfg.proxySocketPath ≠ "" then ["--disable_clone_newnet"] else [])
  let args6 := args5 ++
    ((["/usr", "/lib", "/lib64", "/bin", "/sbin"].filter fs.statExists).flatMap
      (fun dir => ["-R", dir]))
  let args7 := args6 ++
    ["-R", "/dev/null", "-R", "/dev/urandom", "-R", "/dev/random"] ++
    ["--mount_proc"] ++
    ((["/usr/share/zoneinfo", "/etc/localtime"].filter fs.statExists).flatMap
      (fun p => ["-R", p]))
  let args8 := args7 ++
    (if cfg.network then
      ((["/etc/resolv.conf", "/etc/hosts", "/etc/services", "/etc/nsswitch.conf"].filter
          fs.statExists).flatMap (fun p => ["-R", p])) ++
      ((["/etc/ssl", "/etc/pki", "/etc/ca-certificates", "/usr/share/ca-certificates"].filter
          fs.statExists).flatMap (fun dir => ["-R", dir]))
     else [])
  let bunPath ←
    match fs.resolvePath cfg.bunBinary with
    | some p => Except.ok p
    | none => Except.error "failed to resolve bun path"
  let args9 := args8 ++ ["-R", fs.dirOf bunPath]
  let scriptPath ←
    match fs.resolvePath cfg.scriptPath with
    | some p => Except.ok p
    | none => Except.error "failed to resolve script path"
  let args10 := args9 ++ ["-R", fs.dirOf scriptPath]
  let args11 ←
    if cfg.workDir ≠ "" then
      match fs.resolvePath cfg.workDir with
      | some w => Except.ok (args10 ++ ["--cwd", w])
      | none => Except.error "failed to resolve work dir"
    else Except.ok args10
  let args12 ←
    if cfg.nodeModules ≠ "" then
      match fs.resolvePath cfg.nodeModules with
      | some p => Except.ok (args11 ++ ["-R", fs.dirOf p])
      | none => Except.error "failed to resolve node_modules"
    else Except.ok args11
  let args13 := args12 ++
    (cfg.readablePaths.flatMap fun path =>
      match fs.resolvePath path with
      | some r => ["-R", r]
      | none => [])
  let args14 := args13 ++
    (cfg.writablePaths.flatMap fun path =>
      match fs.resolvePath path with
      | some r => ["-B", r]
      | none => if fs.mkdirOk path then ["-B", path] else [])
  let args15 := args14 ++ ["--tmpfsmount", "/tmp"]
  let env := BuildEnvWithNodePath
    (Sandbox.FilterEnv fs.environ cfg.allowedEnvVars ++ cfg.env) cfg.nodeModules
  let args16 := args15 ++ env.flatMap (fun e => ["-E", e])
  Except.ok (args16 ++ ["--"] ++ BuildBunArgs cfg)

end Nsjail

/-! ## Helper lemmas -/

/-- Characters with equal code points are equal. -/
theorem char_eq_of_toNat_eq {a b : Char} (h : a.toNat = b.toNat) : a = b := by
  have hv : a.val = b.val := by
    apply UInt32.eq_of_toBitVec_eq
    exact BitVec.eq_of_toNat_eq h
  exact Char.eq_of_val_eq hv

namespace Cache

/-- Unfolding characterization of `charsLe` on two nonempty lists. -/
theorem charsLe_cons_iff (u v : Char) (us vs : List Char) :
    charsLe (u :: us) (v :: vs) = true ↔
      (u.toNat < v.toNat ∨ (u.toNat = v.toNat ∧ charsLe us vs = true)) := by
  simp only [charsLe]
  by_cases h1 : u.toNat < v.toNat
  · simp [h1]
  · by_cases h2 : v.toNat < u.toNat
    · simp [h1, h2]; omega
    · have h3 : u.toNat = v.toNat := by omega
      simp [h1, h2, h3]

/-- `charsLe` is total. -/
theorem charsLe_total (a b : List Char) : charsLe a b = true ∨ charsLe b a = true := by
  induction a generalizing b with
  | nil => exact Or.inl rfl
  | cons x xs ih =>
    cases b with
    | nil => exact Or.inr rfl
    | cons y ys =>
      rw [charsLe_cons_iff, charsLe_cons_iff]
      rcases Nat.lt_trichotomy x.toNat y.toNat with h | h | h
      · exact Or.inl (Or.inl h)
      · rcases ih ys with ht | ht
        · exact Or.inl (Or.inr ⟨h, ht⟩)
        · exact Or.inr (Or.inr ⟨h.symm, ht⟩)
      · exact Or.inr (Or.inl h)

/-- `charsLe` is transitive. -/
theorem charsLe_trans (a b c : List Char) (hab : charsLe a b = true)
    (hbc : charsLe b c = true) : charsLe a c = true := by
  induction a generalizing b c with
  | nil => rfl
  | cons x xs ih =>
    cases b with
    | nil => simp [charsLe] at hab
    | cons y ys =>
      cases c with
      | nil => simp [charsLe] at hbc
      | cons z zs =>
        rw [charsLe_cons_iff] at hab hbc ⊢
        rcases hab with h1 | ⟨h1, hab⟩
        · rcases hbc with h2 | ⟨h2, _⟩
          · exact Or.inl (h1.trans h2)
          · exact Or.inl (by omega)
        · rcases hbc with h2 | ⟨h2, hbc⟩
          · exact Or.inl (by omega)
          · exact Or.inr ⟨h1.trans h2, ih ys zs hab hbc⟩

/-- `charsLe` is antisymmetric. -/
theorem charsLe_antisymm (a b : List Char) (hab : charsLe a b = true)
    (hba : charsLe b a = true) : a = b := by
  induction a generalizing b with
  | nil =>
    cases b with
    | nil => rfl
    | cons y ys => simp [charsLe] at hba
  | cons x xs ih =>
    cases b with
    | nil => simp [charsLe] at hab
    | cons y ys =>
      rw [charsLe_cons_iff] at hab hba
      rcases hab with h1 | ⟨h1, hab⟩
      · rcases hba with h2 | ⟨h2, _⟩ <;> omega
      · rcases hba with h2 | ⟨h2, hba⟩
        · omega
        · have hxy : x = y := char_eq_of_toNat_eq h1
          rw [hxy, ih ys hab hba]

/-- Sorting under the Go string order is invariant under permutation of the
input. -/
theorem sortStrings_perm_invariant {p q : List String} (h : p.Perm q) :
    sortStrings p = sortStrings q := by
  have hperm : (sortStrings p).Perm (sortStrings q) :=
    ((List.perm_insertionSort strLeGo p).trans h).trans
      (List.perm_insertionSort strLeGo q).symm
  have hap : List.Sorted strLeGo (sortStrings p) :=
    @List.sorted_insertionSort String strLeGo _
      ⟨fun s t => charsLe_total s.data t.data⟩
      ⟨fun s t u => charsLe_trans s.data t.data u.data⟩ p
  have haq : List.Sorted strLeGo (sortStrings q) :=
    @List.sorted_insertionSort String strLeGo _
      ⟨fun s t => charsLe_total s.data t.data⟩
      ⟨fun s t u => charsLe_trans s.data t.data u.data⟩ q
  exact @List.eq_of_perm_of_sorted String strLeGo
    ⟨fun s t h1 h2 => String.ext (charsLe_antisymm s.data t.data h1 h2)⟩
    _ _ hperm hap haq

/-- `HashPackages` of a one-element list hashes the lowercased element. -/
theorem hashPackages_singleton (s : String) :
    HashPackages [s] = SHA256.hexEncode (SHA256.sha256 (SHA256.strBytes (goToLower s))) := by
  simp [HashPackages, sortStrings, List.insertionSort, List.orderedInsert, goJoin]

/-- Claim C1 (counterexample): `HashPackages` is not invariant under
letter-case variants of the package list.  `["b", "a"]` is obtained from
`["B", "a"]` by changing letter case only (no reordering), yet the two cache
keys differ: the code sorts the copied list before lowercasing, and `"B" < "a"`
in byte order while `"b" > "a"`, so the joined pre-images are `"b\na"` and
`"a\nb"`. -/
theorem hashPackages_case_insensitive_counterexample :
    List.Forall₂ caseVariantStr ["B", "a"] ["b", "a"] ∧
    HashPackages ["B", "a"] ≠ HashPackages ["b", "a"] := by
  constructor
  · exact List.Forall₂.cons (show goToLower "B" = goToLower "b" by decide)
      (List.Forall₂.cons (show goToLower "a" = goToLower "a" by decide) List.Forall₂.nil)
  · decide

/-- Claim C1 (amended): `HashPackages` is identical on all permutations of a
package list, and on letter-case variants of a single-element list; general
letter-case variants are not covered because sorting precedes lowercasing. -/
theorem hashPackages_perm_and_singleton_case_invariant :
    (∀ p q : List String, p.Perm q → HashPackages p = HashPackages q) ∧
    (∀ s t : String, caseVariantStr s t → HashPackages [s] = HashPackages [t]) := by
  constructor
  · intro p q h
    simp only [HashPackages]
    rw [sortStrings_perm_invariant h]
  · intro s t h
    rw [hashPackages_singleton, hashPackages_singleton, h]

/-- Witness for the amended C1 theorem at concrete inputs. -/
theorem hashPackages_invariance_witness :
    HashPackages ["zod@^3.0", "chalk@^5.0"] = HashPackages ["chalk@^5.0", "zod@^3.0"] ∧
    HashPackages ["ZOD@^3.0"] = HashPackages ["zod@^3.0"] :=
  ⟨hashPackages_perm_and_singleton_case_invariant.1 _ _ (by decide),
   hashPackages_perm_and_singleton_case_invariant.2 _ _ (show goToLower "ZOD@^3.0" = goToLower "zod@^3.0" by decide)⟩

end Cache

namespace ProxyManager

/-- Claim C2 (counterexample): `Manager.Stop` is not idempotent on a started
manager whose SOCKS5 proxy started successfully.  The first `Stop` succeeds;
the second reaches `close(p.quit)` on an already-closed channel, a Go runtime
panic. -/
theorem managerStop_second_call_panics_counterexample :
    (managerStop startedManager).2 = none ∧
    (managerStop (managerStop startedManager).1).2 = some "close of closed channel" := by
  decide

/-- Claim C2 (amended): `Manager.Stop` releases the HTTP listener, the SOCKS5
listener and the Unix socket file, and is idempotent for a manager without a
running SOCKS5 proxy; but when a SOCKS5 proxy is present whose quit channel is
already closed, `Stop` panics (close of closed channel), so a second `Stop`
after a successful one is not safe. -/
theorem managerStop_release_and_conditional_idempotence :
    (∀ (m : ManagerState) (s : SOCKS5State), m.socks5Proxy = some s →
      s.quitClosed = false →
      (managerStop m).2 = none ∧
      (managerStop m).1.socks5Proxy = some ⟨true, true⟩ ∧
      (∀ h, m.httpProxy = some h → (managerStop m).1.httpProxy = some ⟨true⟩) ∧
      (∀ sp, m.socketProxy = some sp → (managerStop m).1.socketProxy = some ⟨true⟩) ∧
      (∀ sp, m.socketProxy = some sp → m.socketPath ≠ "" →
        (managerStop m).1.socketFileExists = false)) ∧
    (∀ m : ManagerState, m.socks5Proxy = none →
      (managerStop m).2 = none ∧ managerStop (managerStop m).1 = managerStop m) ∧
    (∀ (m : ManagerState) (s : SOCKS5State), m.socks5Proxy = some s →
      s.quitClosed = true →
      (managerStop m).2 = some "close of closed channel") := by
  refine ⟨?_, ?_, ?_⟩
  · intro m s hm hq
    obtain ⟨hp, s5, sp, path, fe⟩ := m
    simp only at hm
    subst hm
    obtain ⟨q, lc⟩ := s
    simp only at hq
    subst hq
    cases sp <;> cases hp <;>
      simp [managerStop, socks5Stop, httpProxyStop] <;>
      (intro hpath; simp [hpath])
  · intro m hm
    obtain ⟨hp, s5, sp, path, fe⟩ := m
    simp only at hm
    subst hm
    cases sp <;> cases hp <;>
      by_cases hpath : path = "" <;>
      simp [managerStop, httpProxyStop, hpath]
  · intro m s hm hq
    obtain ⟨hp, s5, sp, path, fe⟩ := m
    simp only at hm
    subst hm
    cases sp <;> simp [managerStop, socks5Stop, hq]

/-- Witness for the amended C2 theorem at concrete manager states. -/
theorem managerStop_release_witness :
    (managerStop startedManager).1.socks5Proxy = some ⟨true, true⟩ ∧
    (managerStop ⟨some ⟨false⟩, none, some ⟨false⟩, "/tmp/buns-proxy-0001.sock", true⟩).2 = none ∧
    (managerStop ⟨none, some ⟨true, true⟩, none, "", false⟩).2 = some "close of closed channel" :=
  ⟨(managerStop_release_and_conditional_idempotence.1 startedManager ⟨false, false⟩ rfl rfl).2.1,
   (managerStop_release_and_conditional_idempotence.2.1
      ⟨some ⟨false⟩, none, some ⟨false⟩, "/tmp/buns-proxy-0001.sock", true⟩ rfl).1,
   managerStop_release_and_conditional_idempotence.2.2
      ⟨none, some ⟨true, true⟩, none, "", false⟩ ⟨true, true⟩ rfl rfl⟩

end ProxyManager

namespace BunResolver

/-- On a descending-sorted list, `find?` returns a maximum among the elements
satisfying the predicate. -/
theorem find?_max_of_sorted_desc {V : Type} [LinearOrder V] (p : V → Bool)
    (l : List V) (hs : l.Sorted (fun a b => b ≤ a)) (w : V)
    (h : l.find? p = some w) : ∀ u ∈ l, p u = true → u ≤ w := by
  induction l with
  | nil => simp at h
  | cons x xs ih =>
    rw [List.find?_cons] at h
    by_cases hx : p x
    · simp only [hx, if_pos] at h
      injection h with h
      subst h
      intro u hu hp
      rcases List.mem_cons.mp hu with rfl | hu
      · exact le_refl _
      · exact (List.sorted_cons.mp hs).1 u hu
    · simp only [hx, if_neg, Bool.false_eq_true] at h
      intro u hu hp
      rcases List.mem_cons.mp hu with rfl | hu
      · exact absurd hp (by simpa using hx)
      · exact ih (List.sorted_cons.mp hs).2 h u hu hp

/-- Claim C3 (counterexample): at the Runner's resolution step the invalid
constraint syntax is not reported and the error is not distinguishable from
the no-matching-version case.  With a constraint the semver library rejects
(first scenario) and with a constraint it accepts but nothing satisfies
(second scenario), the Runner produces the identical error string, which
differs from the Resolver's verbatim invalid-syntax message. -/
theorem runner_error_collapse_counterexample :
    runnerResolveStep (fun _ => Except.error "improper constraint: bogus")
        (fun (_ : Unit) (_ : Unit) => false) "bogus" [()] =
      .error "no Bun version satisfies \x27bogus\x27" ∧
    runnerResolveStep (fun _ => Except.ok ())
        (fun (_ : Unit) (_ : Unit) => false) "bogus" [()] =
      .error "no Bun version satisfies \x27bogus\x27" ∧
    resolveErrorText (.invalidConstraint "bogus" "improper constraint: bogus") ≠
      "no Bun version satisfies \x27bogus\x27" := by
  refine ⟨rfl, rfl, ?_⟩
  decide

/-- Claim C3 (amended): at the `Resolver` surface an invalid constraint is
reported verbatim by a dedicated error distinct from `NoMatchingVersion`
(which arises exactly when the constraint parses and no version satisfies
it), and an empty version list is a dedicated fatal error; the Runner's
resolution step, however, replaces every resolution failure with the uniform
message `no Bun version satisfies <constraint>`, losing the distinction. -/
theorem resolver_error_surface_amended :
    (∀ {C V : Type} (parse : String → Except String C) (check : C → V → Bool)
        (c cause : String) (v : V) (vs : List V), parse c = .error cause → c ≠ "" →
        Resolve parse check c (v :: vs) = .error (.invalidConstraint c cause)) ∧
    (∀ c cause : String, resolveErrorText (.invalidConstraint c cause) =
        "invalid version constraint \x27" ++ c ++ "\x27: " ++ cause) ∧
    (∀ c cause c2 : String,
        (ResolveError.invalidConstraint c cause) ≠ ResolveError.noMatchingVersion c2) ∧
    (∀ {C V : Type} (parse : String → Except String C) (check : C → V → Bool)
        (c : String) (con : C) (v : V) (vs : List V), parse c = .ok con → c ≠ "" →
        (Resolve parse check c (v :: vs) = .error (.noMatchingVersion c) ↔
          ∀ u ∈ v :: vs, check con u = false)) ∧
    (∀ {C V : Type} (parse : String → Except String C) (check : C → V → Bool)
        (c : String), Resolve parse check c ([] : List V) = .error .noVersionsAvailable) ∧
    (∀ {C V : Type} (parse : String → Except String C) (check : C → V → Bool)
        (c : String) (vs : List V) (e : ResolveError),
        Resolve parse check c vs = .error e →
        runnerResolveStep parse check c vs =
          .error ("no Bun version satisfies \x27" ++ c ++ "\x27")) := by
  refine ⟨?_, ?_, ?_, ?_, ?_, ?_⟩
  · intro C V parse check c cause v vs hparse hc
    simp [Resolve, hparse, hc]
  · intro c cause
    rfl
  · intro c cause c2 h
    exact ResolveError.noConfusion h
  · intro C V parse check c con v vs hparse hc
    simp only [Resolve, if_neg hc, hparse]
    cases hfind : (v :: vs).find? (fun u => check con u) with
    | none =>
      simp only [hfind]
      constructor
      · intro _ u hu
        have := List.find?_eq_none.mp hfind u hu
        simpa using this
      · intro _
        trivial
    | some x =>
      simp only [hfind]
      constructor
      · intro h
        exact absurd h (by simp)
      · intro hall
        have hx : check con x = true := List.find?_some hfind
        have hmem : x ∈ v :: vs := List.mem_of_find?_eq_some hfind
        rw [hall x hmem] at hx
        exact absurd hx (by simp)
  · intro C V parse check c
    rfl
  · intro C V parse check c vs e h
    simp [runnerResolveStep, h]

/-- Witness for the amended C3 theorem at concrete inputs. -/
theorem resolver_error_surface_witness :
    Resolve (fun _ => Except.error "improper constraint: bogus")
        (fun (_ : Unit) (n : Nat) => decide (n ≤ 3)) "bogus" [5] =
      .error (.invalidConstraint "bogus" "improper constraint: bogus") ∧
    (Resolve (fun _ => Except.ok ()) (fun (_ : Unit) (n : Nat) => decide (n ≤ 3))
        ">=9" [5] = .error (.noMatchingVersion ">=9") ↔
      ∀ u ∈ [5], decide (u ≤ 3) = false) ∧
    runnerResolveStep (fun _ => Except.error "improper constraint: bogus")
        (fun (_ : Unit) (n : Nat) => decide (n ≤ 3)) "bogus" [5] =
      .error "no Bun version satisfies \x27bogus\x27" :=
  ⟨resolver_error_surface_amended.1
      (fun _ => Except.error "improper constraint: bogus")
      (fun (_ : Unit) (n : Nat) => decide (n ≤ 3)) "bogus"
      "improper constraint: bogus" 5 [] rfl (by decide),
   resolver_error_surface_amended.2.2.2.1
      (fun _ => Except.ok ()) (fun (_ : Unit) (n : Nat) => decide (n ≤ 3))
      ">=9" () 5 [] rfl (by decide),
   resolver_error_surface_amended.2.2.2.2.2
      (fun _ => Except.error "improper constraint: bogus")
      (fun (_ : Unit) (n : Nat) => decide (n ≤ 3)) "bogus" [5]
      (.invalidConstraint "bogus" "improper constraint: bogus") rfl⟩

/-- Claim C4: for a non-empty version list sorted descending and a constraint
accepted by the semver library, `Resolve` returns the first (hence highest)
matching element of the list, or the dedicated `NoMatchingVersion` error when
nothing matches; an empty constraint returns the head of the list. -/
theorem resolve_returns_highest_match {C V : Type} [LinearOrder V]
    (parse : String → Except String C) (check : C → V → Bool) (c0 : String)
    (con : C) (v : V) (vs : List V) (hparse : parse c0 = .ok con)
    (hsorted : (v :: vs).Sorted (fun a b => b ≤ a)) :
    Resolve parse check "" (v :: vs) = .ok v ∧
    (c0 ≠ "" →
      (∃ w, (v :: vs).find? (fun u => check con u) = some w ∧
            Resolve parse check c0 (v :: vs) = .ok w ∧ w ∈ v :: vs ∧
            check con w = true ∧
            ∀ u ∈ v :: vs, check con u = true → u ≤ w) ∨
      (Resolve parse check c0 (v :: vs) = .error (.noMatchingVersion c0) ∧
       ∀ u ∈ v :: vs, check con u = false)) := by
  constructor
  · rfl
  · intro hc
    cases hfind : (v :: vs).find? (fun u => check con u) with
    | none =>
      refine Or.inr ⟨?_, ?_⟩
      · simp [Resolve, if_neg hc, hparse, hfind]
      · intro u hu
        have := List.find?_eq_none.mp hfind u hu
        simpa using this
    | some w =>
      refine Or.inl ⟨w, rfl, ?_, ?_, ?_, ?_⟩
      · simp [Resolve, if_neg hc, hparse, hfind]
      · exact List.mem_of_find?_eq_some hfind
      · exact List.find?_some hfind
      · exact find?_max_of_sorted_desc _ _ hsorted w hfind

/-- Witness for the C4 theorem: versions `[5, 3, 1]` sorted descending, a
constraint matching values at most `3`; the resolver selects `3`. -/
theorem resolve_returns_highest_match_witness :
    Resolve (fun _ => Except.ok ()) (fun (_ : Unit) (n : Nat) => decide (n ≤ 3))
        "" [5, 3, 1] = .ok 5 ∧
    ("<=3" ≠ "" →
      (∃ w, ([5, 3, 1].find? (fun u => decide (u ≤ 3))) = some w ∧
            Resolve (fun _ => Except.ok ())
              (fun (_ : Unit) (n : Nat) => decide (n ≤ 3)) "<=3" [5, 3, 1] = .ok w ∧
            w ∈ [5, 3, 1] ∧ decide (w ≤ 3) = true ∧
            ∀ u ∈ [5, 3, 1], decide (u ≤ 3) = true → u ≤ w) ∨
      (Resolve (fun _ => Except.ok ())
          (fun (_ : Unit) (n : Nat) => decide (n ≤ 3)) "<=3" [5, 3, 1] =
            .error (.noMatchingVersion "<=3") ∧
       ∀ u ∈ [5, 3, 1], decide (u ≤ 3) = false)) :=
  resolve_returns_highest_match (fun _ => Except.ok ())
    (fun (_ : Unit) (n : Nat) => decide (n ≤ 3)) "<=3" () 5 [3, 1] rfl (by decide)

end BunResolver

namespace Metadata

/-- Inside the block, the scan collects exactly the longest prefix of lines
whose trimmed content begins with `//`, each stripped of the marker. -/
theorem collectBlock_inBlock (lines : List String) :
    collectBlock lines true =
      (lines.takeWhile (fun l => startsWithSlashes (goTrim l))).map
        (fun l => stripCommentMarker (goTrim l)) := by
  induction lines with
  | nil => rfl
  | cons l ls ih =>
    by_cases h : startsWithSlashes (goTrim l)
    · simp [collectBlock, h, List.takeWhile_cons, ih]
    · simp [collectBlock, h, List.takeWhile_cons]

/-- Lines before the marker are ignored. -/
theorem collectBlock_skips_before_marker (pre : List String)
    (hpre : ∀ l ∈ pre, goTrim l ≠ "// buns") (rest : List String) :
    collectBlock (pre ++ rest) false = collectBlock rest false := by
  induction pre with
  | nil => rfl
  | cons l ls ih =>
    have hl : goTrim l ≠ "// buns" := hpre l (by simp)
    simp only [List.cons_append, collectBlock, if_neg hl, if_pos rfl]
    exact ih fun x hx => hpre x (by simp [hx])

/-- Without a marker line the scan collects nothing. -/
theorem collectBlock_no_marker (lines : List String)
    (h : ∀ l ∈ lines, goTrim l ≠ "// buns") : collectBlock lines false = [] := by
  induction lines with
  | nil => rfl
  | cons l ls ih =>
    have hl : goTrim l ≠ "// buns" := h l (by simp)
    simp only [collectBlock, if_pos rfl, if_neg hl]
    exact ih fun x hx => h x (by simp [hx])

/-- Claim C5: the metadata parser ignores every line before the first
`// buns` marker, collects the consecutive following `//` lines stripped of
`//` and one optional space, stopping at the first other line; an absent or
empty block yields the default configuration without error, and malformed
configuration text is a fatal parse error while well-formed text decodes. -/
theorem metadata_parse_spec (decode : String → Except String Metadata) :
    (∀ lines, (∀ l ∈ lines, goTrim l ≠ "// buns") →
        Parse decode lines = .ok defaultMetadata) ∧
    (∀ pre m post, (∀ l ∈ pre, goTrim l ≠ "// buns") → goTrim m = "// buns" →
        collectBlock (pre ++ m :: post) false =
          (post.takeWhile (fun l => startsWithSlashes (goTrim l))).map
            (fun l => stripCommentMarker (goTrim l))) ∧
    (∀ lines, collectBlock lines false = [] →
        Parse decode lines = .ok defaultMetadata) ∧
    (∀ lines tl e, collectBlock lines false = tl → tl ≠ [] →
        decode (Cache.goJoin "\n" tl) = .error e →
        Parse decode lines = .error e) ∧
    (∀ lines tl m, collectBlock lines false = tl → tl ≠ [] →
        decode (Cache.goJoin "\n" tl) = .ok m → Parse decode lines = .ok m) := by
  refine ⟨?_, ?_, ?_, ?_, ?_⟩
  · intro lines h
    have hempty := collectBlock_no_marker lines h
    simp [Parse, hempty]
  · intro pre m post hpre hm
    rw [collectBlock_skips_before_marker pre hpre]
    simp only [collectBlock, if_pos rfl, hm, if_pos rfl]
    exact collectBlock_inBlock post
  · intro lines h
    simp [Parse, h]
  · intro lines tl e hcol hne hdec
    subst hcol
    simp [Parse, hne, hdec]
  · intro lines tl m hcol hne hdec
    subst hcol
    simp [Parse, hne, hdec]

/-- Witness for the C5 theorem on a concrete script and decoders. -/
theorem metadata_parse_spec_witness :
    Parse (fun s => if s = "payload" then .ok ⟨"1.0", []⟩ else .error "parse")
        ["hello", "not a marker"] = .ok defaultMetadata ∧
    collectBlock ["hello", "// buns", "// payload", "end"] false = ["payload"] ∧
    Parse (fun s => if s = "payload" then .ok ⟨"1.0", []⟩ else .error "parse")
        ["hello", "// buns", "// payload", "end"] = .ok ⟨"1.0", []⟩ ∧
    Parse (fun _ => .error "boom") ["hello", "// buns", "// payload", "end"] =
      .error "boom" :=
  ⟨(metadata_parse_spec (fun s => if s = "payload" then .ok ⟨"1.0", []⟩ else .error "parse")).1
      ["hello", "not a marker"] (by decide),
   by
    have h := (metadata_parse_spec (fun _ => .error "x")).2.1 ["hello"] "// buns"
      ["// payload", "end"] (by decide) (by decide)
    simpa using h,
   (metadata_parse_spec (fun s => if s = "payload" then .ok ⟨"1.0", []⟩ else .error "parse")).2.2.2.2
      ["hello", "// buns", "// payload", "end"] ["payload"] ⟨"1.0", []⟩
      (by decide) (by decide) rfl,
   (metadata_parse_spec (fun _ => .error "boom")).2.2.2.1
      ["hello", "// buns", "// payload", "end"] ["payload"] "boom"
      (by decide) (by decide) rfl⟩

end Metadata

namespace Sandbox

/-- Claim C6: `FilterEnv` is a sublist of the process environment; it keeps
every well-formed entry whose name is explicitly allowed, every entry whose
name is safelisted or carries a safe stem (`LC_`, `XDG_`), and nothing else. -/
theorem filterEnv_spec :
    (∀ environ allowed, (FilterEnv environ allowed).Sublist environ) ∧
    (∀ environ allowed e name, e ∈ environ → envVarName e = some name →
        name ∈ allowed → e ∈ FilterEnv environ allowed) ∧
    (∀ environ allowed e name, e ∈ environ → envVarName e = some name →
        (name ∈ SafeEnvVars ∨ ∃ p ∈ SafeEnvStems, p.data.isPrefixOf name.data) →
        e ∈ FilterEnv environ allowed) ∧
    (∀ environ allowed e, e ∈ FilterEnv environ allowed →
        e ∈ environ ∧ ∃ name, envVarName e = some name ∧
          (name ∈ allowed ∨ name ∈ SafeEnvVars ∨
           ∃ p ∈ SafeEnvStems, p.data.isPrefixOf name.data)) := by
  refine ⟨?_, ?_, ?_, ?_⟩
  · intro environ allowed
    exact List.filter_sublist environ
  · intro environ allowed e name he hname hmem
    rw [FilterEnv, List.mem_filter]
    refine ⟨he, ?_⟩
    simp [hname, envNameAllowed, List.contains, List.elem_iff, hmem]
  · intro environ allowed e name he hname hmem
    rw [FilterEnv, List.mem_filter]
    refine ⟨he, ?_⟩
    rcases hmem with hsafe | ⟨p, hp, hpre⟩
    · simp [hname, envNameAllowed, List.contains, List.elem_iff, hsafe]
    · have : SafeEnvStems.any (fun q => q.data.isPrefixOf name.data) = true :=
        List.any_eq_true.mpr ⟨p, hp, hpre⟩
      simp [hname, envNameAllowed, this]
  · intro environ allowed e he
    rw [FilterEnv, List.mem_filter] at he
    obtain ⟨hmem, hcond⟩ := he
    refine ⟨hmem, ?_⟩
    cases hname : envVarName e with
    | none => rw [hname] at hcond; simp at hcond
    | some name =>
      rw [hname] at hcond
      refine ⟨name, rfl, ?_⟩
      simp only [envNameAllowed, Bool.or_eq_true, List.contains, List.elem_iff,
        List.any_eq_true] at hcond
      tauto

/-- Witness for the C6 theorem on a concrete environment. -/
theorem filterEnv_spec_witness :
    "FOO=1" ∈ FilterEnv ["PATH=/usr/bin", "SECRET=x", "FOO=1"] ["FOO"] ∧
    "LC_ALL=C" ∈ FilterEnv ["LC_ALL=C", "SECRET=x"] [] :=
  ⟨filterEnv_spec.2.1 ["PATH=/usr/bin", "SECRET=x", "FOO=1"] ["FOO"] "FOO=1" "FOO"
      (by decide) (by decide) (by decide),
   filterEnv_spec.2.2.1 ["LC_ALL=C", "SECRET=x"] [] "LC_ALL=C" "LC_ALL"
      (by decide) (by decide)
      (Or.inr ⟨"LC_", by decide, by decide⟩)⟩

end Sandbox

namespace CLI

/-- Claim C7: whenever a sandbox is requested (full-sandbox flag, offline
flag, or a non-empty host allow-list) and the relevant detection yields the
no-op backend, `runScript` refuses with an unavailability error and never
invokes the runner. -/
theorem runScript_refuses_unavailable_sandbox
    (detect : Bool → SandboxBackend) (sandboxEnabled offline : Bool)
    (allowHosts : List String) (runner : SandboxBackend → Int)
    (hreq : sandboxEnabled = true ∨ offline = true ∨ allowHosts ≠ [])
    (hfull : sandboxEnabled = true → (detect true).isSandboxed = false)
    (hnet : sandboxEnabled = false → (detect false).isSandboxed = false) :
    ∃ msg,
      determineSandbox detect sandboxEnabled offline allowHosts = .error msg ∧
      runScriptModel detect sandboxEnabled offline allowHosts runner = .error msg ∧
      (msg = "--sandbox requested but no sandbox is available on this system" ∨
       msg = "--offline/--allow-host requires network sandboxing, but no sandbox is available on this system") := by
  cases sandboxEnabled with
  | true =>
    refine ⟨_, ?_, ?_, Or.inl rfl⟩
    · simp [determineSandbox, hfull rfl]
    · simp [runScriptModel, determineSandbox, hfull rfl]
  | false =>
    have hcond : (offline || !allowHosts.isEmpty) = true := by
      rcases hreq with h | h | h
      · exact absurd h (by simp)
      · simp [h]
      · simp [h]
    refine ⟨_, ?_, ?_, Or.inr rfl⟩
    · simp [determineSandbox, hcond, hnet rfl]
    · simp [runScriptModel, determineSandbox, hcond, hnet rfl]

/-- Witness for the C7 theorem: offline mode with detection returning the
no-op backend. -/
theorem runScript_refuses_witness :
    ∃ msg,
      determineSandbox (fun _ => noneBackend) false true [] = .error msg ∧
      runScriptModel (fun _ => noneBackend) false true [] (fun _ => 0) = .error msg ∧
      (msg = "--sandbox requested but no sandbox is available on this system" ∨
       msg = "--offline/--allow-host requires network sandboxing, but no sandbox is available on this system") :=
  runScript_refuses_unavailable_sandbox (fun _ => noneBackend) false true []
    (fun _ => 0) (Or.inr (Or.inl rfl)) (fun h => by cases h) (fun _ => rfl)

end CLI

namespace Npm

/-- `goIndexAt` never returns less than `-1`. -/
theorem goIndexAt_ge_neg_one (cs : List Char) : -1 ≤ goIndexAt cs := by
  induction cs with
  | nil => simp [goIndexAt]
  | cons c cs ih =>
    simp only [goIndexAt]
    by_cases h : c = '@'
    · simp [h]
    · simp only [if_neg h]
      by_cases h2 : goIndexAt cs < 0
      · simp [h2]
      · simp only [if_neg h2]; omega

/-- `goIndexAt` is non-negative exactly when the character occurs. -/
theorem goIndexAt_nonneg_iff (cs : List Char) : 0 ≤ goIndexAt cs ↔ '@' ∈ cs := by
  induction cs with
  | nil => simp [goIndexAt]
  | cons c cs ih =>
    simp only [goIndexAt, List.mem_cons]
    by_cases h : c = '@'
    · simp [h]
    · simp only [if_neg h]
      have hne : ¬ ('@' = c) := fun he => h he.symm
      by_cases h2 : goIndexAt cs < 0
      · have hnm : '@' ∉ cs := fun hm => absurd (ih.mpr hm) (by omega)
        simp only [if_pos h2]
        constructor
        · intro hc; omega
        · rintro (hc | hc)
          · exact absurd hc hne
          · exact absurd hc hnm
      · simp only [if_neg h2]
        have hm : '@' ∈ cs := ih.mp (by omega)
        constructor
        · intro _; exact Or.inr hm
        · intro _; omega

/-- A non-negative `goIndexAt` result splits the list at the first `@`. -/
theorem goIndexAt_split (cs : List Char) (i : Nat) (h : goIndexAt cs = (i : Int)) :
    cs = cs.take i ++ '@' :: cs.drop (i + 1) ∧ '@' ∉ cs.take i := by
  induction cs generalizing i with
  | nil => simp [goIndexAt] at h
  | cons c cs ih =>
    simp only [goIndexAt] at h
    by_cases hc : c = '@'
    · rw [if_pos hc] at h
      have hi : i = 0 := by omega
      subst hi
      simp [hc]
    · rw [if_neg hc] at h
      by_cases hneg : goIndexAt cs < 0
      · rw [if_pos hneg] at h; omega
      · rw [if_neg hneg] at h
        obtain ⟨j, rfl⟩ : ∃ j, i = j + 1 := ⟨i - 1, by omega⟩
        have hj : goIndexAt cs = (j : Int) := by push_cast at h ⊢; omega
        obtain ⟨hdecomp, hnot⟩ := ih j hj
        refine ⟨?_, ?_⟩
        · simp only [List.take_succ_cons, List.drop_succ_cons, List.cons_append]
          exact congrArg (c :: ·) hdecomp
        · simp only [List.take_succ_cons, List.mem_cons]
          rintro (he | he)
          · exact hc he.symm
          · exact hnot he

/-- `goLastIndexAt` never returns less than `-1`. -/
theorem goLastIndexAt_ge_neg_one (cs : List Char) : -1 ≤ goLastIndexAt cs := by
  induction cs with
  | nil => simp [goLastIndexAt]
  | cons c cs ih =>
    simp only [goLastIndexAt]
    by_cases h2 : 0 ≤ goLastIndexAt cs
    · simp only [if_pos h2]; omega
    · simp only [if_neg h2]
      by_cases h : c = '@' <;> simp [h]

/-- `goLastIndexAt` is non-negative exactly when the character occurs. -/
theorem goLastIndexAt_nonneg_iff (cs : List Char) :
    0 ≤ goLastIndexAt cs ↔ '@' ∈ cs := by
  induction cs with
  | nil => simp [goLastIndexAt]
  | cons c cs ih =>
    simp only [goLastIndexAt, List.mem_cons]
    by_cases h2 : 0 ≤ goLastIndexAt cs
    · simp only [if_pos h2]
      have hm : '@' ∈ cs := ih.mp h2
      constructor
      · intro _; exact Or.inr hm
      · intro _; omega
    · simp only [if_neg h2]
      have hnm : '@' ∉ cs := fun hm => absurd (ih.mpr hm) h2
      by_cases h : c = '@'
      · simp only [if_pos h]
        constructor
        · intro _; exact Or.inl h.symm
        · intro _; omega
      · simp only [if_neg h]
        have hne : ¬ ('@' = c) := fun he => h he.symm
        constructor
        · intro hc; omega
        · rintro (hc | hc)
          · exact absurd hc hne
          · exact absurd hc hnm

/-- A non-negative `goLastIndexAt` result splits the list at the last `@`. -/
theorem goLastIndexAt_split (cs : List Char) (i : Nat)
    (h : goLastIndexAt cs = (i : Int)) :
    cs = cs.take i ++ '@' :: cs.drop (i + 1) ∧ '@' ∉ cs.drop (i + 1) := by
  induction cs generalizing i with
  | nil => simp [goLastIndexAt] at h
  | cons c cs ih =>
    simp only [goLastIndexAt] at h
    by_cases h2 : 0 ≤ goLastIndexAt cs
    · rw [if_pos h2] at h
      obtain ⟨j, rfl⟩ : ∃ j, i = j + 1 := by
        refine ⟨i - 1, ?_⟩
        omega
      have hj : goLastIndexAt cs = (j : Int) := by push_cast at h ⊢; omega
      obtain ⟨hdecomp, hnot⟩ := ih j hj
      refine ⟨?_, ?_⟩
      · simp only [List.take_succ_cons, List.drop_succ_cons, List.cons_append]
        exact congrArg (c :: ·) hdecomp
      · simpa using hnot
    · rw [if_neg h2] at h
      have hnm : '@' ∉ cs := fun hm => absurd (goLastIndexAt_nonneg_iff cs |>.mpr hm) h2
      by_cases hc : c = '@'
      · rw [if_pos hc] at h
        have hi : i = 0 := by omega
        subst hi
        simp [hc, hnm]
      · rw [if_neg hc] at h; omega

/-- Evaluation of `parsePackageSpec` on scoped specs. -/
theorem parsePackageSpec_scoped (cs0 : List Char) :
    ('@' ∈ cs0 → ∃ j : Nat, goLastIndexAt cs0 = (j : Int) ∧
        parsePackageSpec ⟨'@' :: cs0⟩ = (⟨'@' :: cs0.take j⟩, ⟨cs0.drop (j + 1)⟩)) ∧
    ('@' ∉ cs0 → parsePackageSpec ⟨'@' :: cs0⟩ = (⟨'@' :: cs0⟩, "")) := by
  constructor
  · intro hm
    have hr : 0 ≤ goLastIndexAt cs0 := (goLastIndexAt_nonneg_iff cs0).mpr hm
    obtain ⟨j, hj⟩ := Int.eq_ofNat_of_zero_le hr
    refine ⟨j, hj, ?_⟩
    have hlast : goLastIndexAt ('@' :: cs0) = ((j + 1 : Nat) : Int) := by
      simp only [goLastIndexAt, hj]
      rw [if_pos (by omega : (0 : Int) ≤ (j : Int))]
      push_cast
      ring
    have hfirst : goIndexAt ('@' :: cs0) = 0 := by simp [goIndexAt]
    simp only [parsePackageSpec]
    rw [if_pos (show ('@' :: cs0).head? = some '@' from rfl)]
    rw [hlast, hfirst]
    rw [if_pos (⟨by push_cast; omega, by push_cast; omega⟩ :
      (0 : Int) < ((j + 1 : Nat) : Int) ∧ ((j + 1 : Nat) : Int) ≠ 0)]
    simp [List.take_succ_cons, List.drop_succ_cons]
  · intro hm
    have hr : ¬ (0 ≤ goLastIndexAt cs0) :=
      fun hc => hm ((goLastIndexAt_nonneg_iff cs0).mp hc)
    have hlast : goLastIndexAt ('@' :: cs0) = 0 := by
      simp only [goLastIndexAt, if_neg hr]
      simp
    simp only [parsePackageSpec]
    rw [if_pos (show ('@' :: cs0).head? = some '@' from rfl)]
    rw [hlast]
    simp

/-- Evaluation of `parsePackageSpec` on unscoped specs. -/
theorem parsePackageSpec_unscoped (l : List Char) (hhead : l.head? ≠ some '@') :
    ('@' ∈ l → ∃ j : Nat, goIndexAt l = (j : Int) ∧ 0 < j ∧
        parsePackageSpec ⟨l⟩ = (⟨l.take j⟩, ⟨l.drop (j + 1)⟩)) ∧
    ('@' ∉ l → parsePackageSpec ⟨l⟩ = (⟨l⟩, "")) := by
  constructor
  · intro hm
    have hr : 0 ≤ goIndexAt l := (goIndexAt_nonneg_iff l).mpr hm
    obtain ⟨j, hj⟩ := Int.eq_ofNat_of_zero_le hr
    have hjpos : 0 < j := by
      rcases Nat.eq_zero_or_pos j with h0 | h
      · exfalso
        subst h0
        obtain ⟨hdecomp, _⟩ := goIndexAt_split l 0 hj
        rw [hdecomp] at hhead
        simp at hhead
      · exact h
    refine ⟨j, hj, hjpos, ?_⟩
    simp only [parsePackageSpec]
    rw [if_neg (by simpa using hhead)]
    rw [hj]
    rw [if_pos (by omega : (0 : Int) < ((j : Nat) : Int))]
    simp
  · intro hm
    have hr : ¬ (0 ≤ goIndexAt l) := fun hc => hm ((goIndexAt_nonneg_iff l).mp hc)
    simp only [parsePackageSpec]
    rw [if_neg (by simpa using hhead)]
    rw [if_neg (by omega : ¬ ((0 : Int) < goIndexAt l))]

/-- The name component is the whole spec or a positive-length-index cut of it. -/
theorem parsePackageSpec_name_cases (l : List Char) :
    (parsePackageSpec ⟨l⟩).1.data = l ∨
    ∃ k : Nat, 0 < k ∧ l ≠ [] ∧ (parsePackageSpec ⟨l⟩).1.data = l.take k := by
  by_cases hhead : l.head? = some '@'
  · obtain ⟨c, cs0, rfl⟩ : ∃ c cs0, l = c :: cs0 := by
      cases l with
      | nil => simp at hhead
      | cons c cs0 => exact ⟨c, cs0, rfl⟩
    have hc : c = '@' := by simpa using hhead
    subst hc
    by_cases hm : '@' ∈ cs0
    · obtain ⟨j, _, hps⟩ := (parsePackageSpec_scoped cs0).1 hm
      right
      exact ⟨j + 1, Nat.succ_pos j, by simp, by rw [hps]; simp [List.take_succ_cons]⟩
    · left
      rw [(parsePackageSpec_scoped cs0).2 hm]
  · by_cases hm : '@' ∈ l
    · obtain ⟨j, _, hjpos, hps⟩ := (parsePackageSpec_unscoped l hhead).1 hm
      right
      refine ⟨j, hjpos, ?_, by rw [hps]⟩
      rintro rfl
      simp at hm
    · left
      rw [(parsePackageSpec_unscoped l hhead).2 hm]

/-- Claim C8 (counterexample): the parser performs no validation, so the
invariant "the resulting name is non-empty and contains no whitespace" fails:
the empty spec yields an empty name, and a spec with interior whitespace
yields a name containing a space. -/
theorem parsePackageSpec_invariant_counterexample :
    (parsePackageSpec "").1 = "" ∧
    (parsePackageSpec "a b@1").1 = "a b" ∧
    ' ' ∈ (parsePackageSpec "a b@1").1.data := by
  refine ⟨rfl, rfl, ?_⟩
  decide

/-- Claim C8 (amended): specs split at the last `@` when scoped with a second
`@`, at the first `@` when unscoped, with an empty constraint (meaning
latest) otherwise; the name is non-empty whenever the spec is, and every
character of the name comes from the spec (so the name is whitespace-free
whenever the spec is) — the parser itself performs no validation. -/
theorem parsePackageSpec_amended :
    (∀ spec : String, spec.data.head? = some '@' → '@' ∈ spec.data.tail →
        (parsePackageSpec spec).1.data ++ '@' :: (parsePackageSpec spec).2.data =
          spec.data ∧
        '@' ∉ (parsePackageSpec spec).2.data ∧ (parsePackageSpec spec).1 ≠ "") ∧
    (∀ spec : String, spec.data.head? = some '@' → '@' ∉ spec.data.tail →
        parsePackageSpec spec = (spec, "")) ∧
    (∀ spec : String, spec.data.head? ≠ some '@' → '@' ∈ spec.data →
        (parsePackageSpec spec).1.data ++ '@' :: (parsePackageSpec spec).2.data =
          spec.data ∧
        '@' ∉ (parsePackageSpec spec).1.data ∧ (parsePackageSpec spec).1 ≠ "") ∧
    (∀ spec : String, '@' ∉ spec.data → parsePackageSpec spec = (spec, "")) ∧
    (∀ spec : String, spec ≠ "" → (parsePackageSpec spec).1 ≠ "") ∧
    (∀ (spec : String) (c : Char), c ∈ (parsePackageSpec spec).1.data →
        c ∈ spec.data) := by
  refine ⟨?_, ?_, ?_, ?_, ?_, ?_⟩
  · intro spec hhead htail
    obtain ⟨l⟩ := spec
    obtain ⟨c, cs0, rfl⟩ : ∃ c cs0, l = c :: cs0 := by
      cases l with
      | nil => simp at hhead
      | cons c cs0 => exact ⟨c, cs0, rfl⟩
    have hc : c = '@' := by simpa using hhead
    subst hc
    have hm : '@' ∈ cs0 := by simpa using htail
    obtain ⟨j, hj, hps⟩ := (parsePackageSpec_scoped cs0).1 hm
    obtain ⟨hdecomp, hnot⟩ := goLastIndexAt_split cs0 j hj
    rw [hps]
    refine ⟨?_, ?_, ?_⟩
    · show ('@' :: cs0.take j) ++ '@' :: cs0.drop (j + 1) = '@' :: cs0
      rw [List.cons_append]
      exact congrArg ('@' :: ·) hdecomp.symm
    · exact hnot
    · intro h
      exact absurd (congrArg String.data h) (by simp)
  · intro spec hhead htail
    obtain ⟨l⟩ := spec
    obtain ⟨c, cs0, rfl⟩ : ∃ c cs0, l = c :: cs0 := by
      cases l with
      | nil => simp at hhead
      | cons c cs0 => exact ⟨c, cs0, rfl⟩
    have hc : c = '@' := by simpa using hhead
    subst hc
    have hm : '@' ∉ cs0 := by simpa using htail
    exact (parsePackageSpec_scoped cs0).2 hm
  · intro spec hhead hm
    obtain ⟨l⟩ := spec
    obtain ⟨j, hj, hjpos, hps⟩ := (parsePackageSpec_unscoped l hhead).1 hm
    obtain ⟨hdecomp, hnot⟩ := goIndexAt_split l j hj
    rw [hps]
    exact ⟨hdecomp.symm, hnot, by
      intro h
      have hd := congrArg String.data h
      simp only [] at hd
      have : l.take j = [] := hd
      rcases List.take_eq_nil_iff.mp this with h0 | h0
      · omega
      · subst h0
        simp at hm⟩
  · intro spec hm
    obtain ⟨l⟩ := spec
    by_cases hhead : l.head? = some '@'
    · obtain ⟨c, cs0, rfl⟩ : ∃ c cs0, l = c :: cs0 := by
        cases l with
        | nil => simp at hhead
        | cons c cs0 => exact ⟨c, cs0, rfl⟩
      have hc : c = '@' := by simpa using hhead
      subst hc
      simp at hm
    · exact (parsePackageSpec_unscoped l hhead).2 hm
  · intro spec hne
    obtain ⟨l⟩ := spec
    have hlne : l ≠ [] := by
      intro h
      subst h
      exact hne rfl
    rcases parsePackageSpec_name_cases l with h | ⟨k, hk, _, h⟩
    · intro hcon
      have hd := congrArg String.data hcon
      rw [h] at hd
      exact hlne hd
    · intro hcon
      have hd := congrArg String.data hcon
      rw [h] at hd
      rcases List.take_eq_nil_iff.mp hd with h0 | h0
      · omega
      · exact hlne h0
  · intro spec c hc
    obtain ⟨l⟩ := spec
    rcases parsePackageSpec_name_cases l with h | ⟨k, _, _, h⟩
    · rw [h] at hc
      exact hc
    · rw [h] at hc
      exact List.take_subset k l hc

/-- Witness for the amended C8 theorem at concrete specs of all four shapes. -/
theorem parsePackageSpec_amended_witness :
    ((parsePackageSpec "@scope/pkg@^1.0").1.data ++
        '@' :: (parsePackageSpec "@scope/pkg@^1.0").2.data =
          ("@scope/pkg@^1.0" : String).data ∧
      '@' ∉ (parsePackageSpec "@scope/pkg@^1.0").2.data ∧
      (parsePackageSpec "@scope/pkg@^1.0").1 ≠ "") ∧
    parsePackageSpec "@scope/pkg" = ("@scope/pkg", "") ∧
    ((parsePackageSpec "zod@^3.0").1.data ++
        '@' :: (parsePackageSpec "zod@^3.0").2.data = ("zod@^3.0" : String).data ∧
      '@' ∉ (parsePackageSpec "zod@^3.0").1.data ∧
      (parsePackageSpec "zod@^3.0").1 ≠ "") ∧
    parsePackageSpec "plain" = ("plain", "") :=
  ⟨parsePackageSpec_amended.1 "@scope/pkg@^1.0" (by decide) (by decide),
   parsePackageSpec_amended.2.1 "@scope/pkg" (by decide) (by decide),
   parsePackageSpec_amended.2.2.1 "zod@^3.0" (by decide) (by decide),
   parsePackageSpec_amended.2.2.2.1 "plain" (by decide)⟩

end Npm

namespace Proxy

/-- `io.ReadFull` on a stream that begins with an `n`-byte chunk yields that
chunk and the remainder. -/
theorem takeN_append (n : Nat) (xs rest : List Nat) (h : xs.length = n) :
    takeN n (xs ++ rest) = some (xs, rest) := by
  induction xs generalizing n with
  | nil =>
    subst h
    rfl
  | cons x xs ih =>
    subst h
    simp only [List.length_cons, List.cons_append, takeN]
    rw [show xs.append rest = xs ++ rest from rfl, ih xs.length rfl]

/-- Claim C9: a CONNECT request whose address cannot be parsed — an
address-type byte other than 1, 3, 4, or a truncated address/port — makes the
proxy reply with code 8 (address type not supported) and a zeroed IPv4 bound
address, and the handler finishes without consulting the domain filter or
dialing any upstream host. -/
theorem socks5_unparsable_address_reply :
    (∀ (atyp : Nat) (input : List Nat), atyp ≠ 1 → atyp ≠ 3 → atyp ≠ 4 →
        readAddress atyp input = none) ∧
    (∀ (filter : HostAddr → Bool) (dial : HostAddr → Nat → Option TCPAddr)
        (nMethods : Nat) (methods : List Nat) (rsv atyp : Nat)
        (addrBytes : List Nat), methods.length = nMethods →
        methods.contains 0 = true → readAddress atyp addrBytes = none →
        handleConnection filter dial
          (5 :: nMethods :: (methods ++ 5 :: 1 :: rsv :: atyp :: addrBytes)) =
          ⟨[[5, 0], [5, 8, 0, 1, 0, 0, 0, 0, 0, 0]], [], []⟩) := by
  constructor
  · intro atyp input h1 h3 h4
    simp [readAddress, h1, h3, h4]
  · intro filter dial nMethods methods rsv atyp addrBytes hlen hc hbad
    simp only [handleConnection,
      show takeN 2 (5 :: nMethods :: (methods ++ 5 :: 1 :: rsv :: atyp :: addrBytes)) =
        some ([5, nMethods], methods ++ 5 :: 1 :: rsv :: atyp :: addrBytes) from rfl]
    rw [show ([5, nMethods].getD 0 0) = 5 from rfl,
      show ([5, nMethods].getD 1 0) = nMethods from rfl]
    rw [takeN_append nMethods methods _ hlen]
    simp only [hc]
    rw [show takeN 4 (5 :: 1 :: rsv :: atyp :: addrBytes) =
      some ([5, 1, rsv, atyp], addrBytes) from rfl]
    simp [List.getD, hbad, sendReplyBytes]

/-- Witness for the C9 theorem: address type 9 with an empty address tail. -/
theorem socks5_unparsable_address_witness :
    readAddress 9 [] = none ∧
    handleConnection (fun _ => true) (fun _ _ => none)
        [5, 1, 0, 5, 1, 0, 9] =
      ⟨[[5, 0], [5, 8, 0, 1, 0, 0, 0, 0, 0, 0]], [], []⟩ :=
  ⟨socks5_unparsable_address_reply.1 9 [] (by decide) (by decide) (by decide),
   socks5_unparsable_address_reply.2 (fun _ => true) (fun _ _ => none)
     1 [0] 0 9 [] rfl rfl (socks5_unparsable_address_reply.1 9 [] (by decide)
       (by decide) (by decide))⟩

end Proxy

namespace Nsjail

/-- Destructuring a successful `Except` bind. -/
theorem except_bind_ok {ε α β : Type} (x : Except ε α) (f : α → Except ε β)
    (b : β) (h : (x >>= f) = .ok b) : ∃ a, x = .ok a ∧ f a = .ok b := by
  cases x with
  | ok a => exact ⟨a, rfl, h⟩
  | error e => exact absurd h (by simp [Bind.bind, Except.bind])

/-- Claim C10: every successful `buildArgs` result opens with the fixed
mode/user/quiet arguments, then `--time_limit`, `--rlimit_as` and
`--rlimit_cpu` exactly when the respective configured value is positive, then
the unconditional hard limits `--rlimit_fsize 50`, `--rlimit_nofile 128` and
`--rlimit_nproc 10`, whatever the configuration and filesystem state. -/
theorem buildArgs_resource_limits (fs : FSContext) (cfg : Config)
    (args : List String) (h : buildArgs fs cfg = .ok args) :
    ∃ tail, args =
      ["--mode", "o", "--user", "65534", "--group", "65534", "--quiet"] ++
      (if 0 < cfg.timeout then ["--time_limit", toString (cfg.timeout / 1000000000)] else []) ++
      (if 0 < cfg.memoryMB then ["--rlimit_as", toString cfg.memoryMB] else []) ++
      (if 0 < cfg.cpuSeconds then ["--rlimit_cpu", toString cfg.cpuSeconds] else []) ++
      ["--rlimit_fsize", "50", "--rlimit_nofile", "128", "--rlimit_nproc", "10"] ++
      tail := by
  simp only [buildArgs] at h
  cases hbun : fs.resolvePath cfg.bunBinary with
  | none => rw [hbun] at h; simp [Bind.bind, Except.bind] at h
  | some bunPath =>
  rw [hbun] at h
  simp only [Bind.bind, Except.bind] at h
  cases hscript : fs.resolvePath cfg.scriptPath with
  | none => rw [hscript] at h; simp at h
  | some scriptPath =>
  rw [hscript] at h
  simp only at h
  by_cases hw : cfg.workDir ≠ ""
  case neg =>
    rw [if_neg hw] at h
    by_cases hnm : cfg.nodeModules ≠ ""
    case neg =>
      rw [if_neg hnm] at h
      injection h with h
      subst h
      simp only [List.append_assoc]
      exact ⟨_, rfl⟩
    case pos =>
      rw [if_pos hnm] at h
      cases hr : fs.resolvePath cfg.nodeModules with
      | none => rw [hr] at h; simp at h
      | some p =>
        rw [hr] at h
        simp only at h
        injection h with h
        subst h
        simp only [List.append_assoc]
        exact ⟨_, rfl⟩
  case pos =>
    rw [if_pos hw] at h
    cases hwr : fs.resolvePath cfg.workDir with
    | none => rw [hwr] at h; simp at h
    | some w =>
    rw [hwr] at h
    simp only at h
    by_cases hnm : cfg.nodeModules ≠ ""
    case neg =>
      rw [if_neg hnm] at h
      injection h with h
      subst h
      simp only [List.append_assoc]
      exact ⟨_, rfl⟩
    case pos =>
      rw [if_pos hnm] at h
      cases hr : fs.resolvePath cfg.nodeModules with
      | none => rw [hr] at h; simp at h
      | some p =>
        rw [hr] at h
        simp only at h
        injection h with h
        subst h
        simp only [List.append_assoc]
        exact ⟨_, rfl⟩

/-- Witness for the C10 theorem on a concrete configuration (negative memory
and cpu limits, positive timeout) and a trivial filesystem context. -/
theorem buildArgs_resource_limits_witness :
    ∃ args, buildArgs
        ⟨fun _ => false, fun p => some p, fun _ => false, fun _ => "/", []⟩
        ⟨2000000000, 0, -1, false, "", "/bin/bun", "/s.ts", "", "", [], [], [], [], []⟩ =
        .ok args ∧
      ∃ tail, args =
        ["--mode", "o", "--user", "65534", "--group", "65534", "--quiet"] ++
        ["--time_limit", "2"] ++ [] ++ [] ++
        ["--rlimit_fsize", "50", "--rlimit_nofile", "128", "--rlimit_nproc", "10"] ++
        tail := by
  refine ⟨_, rfl, ?_⟩
  have h := buildArgs_resource_limits
    ⟨fun _ => false, fun p => some p, fun _ => false, fun _ => "/", []⟩
    ⟨2000000000, 0, -1, false, "", "/bin/bun", "/s.ts", "", "", [], [], [], [], []⟩
    _ rfl
  simpa [show toString ((2000000000 : Int) / 1000000000) = "2" from by decide,
    show toString (2 : Int) = "2" from by decide] using h

end Nsjail

end Buns
